import Mathlib

/-!
Verification of the bcsv benchmark aggregation / regression-detection /
comparison engine (benchmark/compare_runs.py, benchmark/lib/aggregation.py,
benchmark/lib/constants.py, benchmark/lib/runner.py, benchmark/lib/discovery.py,
benchmark/run_interleaved_pairs.py).

The Python code works on JSON-shaped data: dicts with string keys whose values
are strings, ints, floats or booleans.  We embed such a value as `JVal`
(floats are modelled as rationals, exact arithmetic), and a JSON object
(a Python dict) as an association list `Record` in insertion order, which is
the order Python dicts preserve.  Python's `==` compares ints, floats and
bools numerically across types; `pyEqJ` models that.
-/

namespace BcsvBench

/-- Scalar JSON value as handled by the benchmark scripts: string, int,
float (modelled exactly as a rational) or boolean. -/
inductive JVal where
  | s : String → JVal
  | i : Int → JVal
  | f : ℚ → JVal
  | b : Bool → JVal
deriving DecidableEq

/-- A Python dict with string keys, in insertion order. -/
abbrev Record := List (String × JVal)

/-- Dict lookup: first entry with the given key (Python dicts have unique
keys, so first = only). Models `d[k]` / `d.get(k)`. -/
def alookup (k : String) : Record → Option JVal
  | [] => none
  | p :: t => if p.1 = k then some p.2 else alookup k t

/-- Models `d.get(k, default)`. -/
def getD (r : Record) (k : String) (d : JVal) : JVal := (alookup k r).getD d

/-- Models Python dict assignment `d[k] = v`: an existing key keeps its
position and gets the new value, a new key is appended. -/
def dictSet (r : Record) (k : String) (v : JVal) : Record :=
  if r.any (fun p => p.1 = k) then
    r.map (fun p => if p.1 = k then (p.1, v) else p)
  else r ++ [(k, v)]

/-- Numeric view used by Python's cross-type `==` and arithmetic:
ints and floats are numbers; `bool` is a subclass of `int` in Python, so
`True` counts as `1` and `False` as `0`.  Strings are not numbers. -/
def toNumO : JVal → Option ℚ
  | .i n => some (n : ℚ)
  | .f q => some q
  | .b bb => some (if bb then 1 else 0)
  | .s _ => none

/-- Numeric coercion for contexts where the scripts do arithmetic on a
value they obtained with a numeric default (`d.get(k, 0) + ...`).  On a
string this returns junk 0; the scripts never add strings on the data the
claims concern. -/
def toQ (v : JVal) : ℚ := (toNumO v).getD 0

/-- Models `isinstance(v, bool)`. -/
def isBoolJ : JVal → Bool
  | .b _ => true
  | _ => false

/-- Models `isinstance(v, (int, float)) and not isinstance(v, bool)`. -/
def isNumJ : JVal → Bool
  | .i _ => true
  | .f _ => true
  | _ => false

/-- Models `isinstance(v, int) and not isinstance(v, bool)`. -/
def isIntJ : JVal → Bool
  | .i _ => true
  | _ => false

/-- Truth value of a boolean JVal (callers guard with `isBoolJ`). -/
def boolVal : JVal → Bool
  | .b bb => bb
  | _ => false

/-- Models Python `==` on scalars: equal strings, or numerically equal
numbers (ints, floats and bools compare across types: `10 == 10.0`,
`True == 1`); a string never equals a number. -/
def pyEqJ (a c : JVal) : Bool :=
  match a, c with
  | .s x, .s y => x = y
  | a, c =>
    match toNumO a, toNumO c with
    | some x, some y => x = y
    | _, _ => false

/-- Code-point comparison of char lists, as Python compares strings. -/
def charsLt : List Char → List Char → Bool
  | [], [] => false
  | [], _ :: _ => true
  | _ :: _, [] => false
  | a :: as, c :: cs =>
    if a.val < c.val then true else if c.val < a.val then false else charsLt as cs

/-- Python string `<` (lexicographic by code point). -/
def strLtB (a c : String) : Bool := charsLt a.data c.data

/-- Models Python `<` on scalars as the sort key comparisons use it:
strings by code point, numbers numerically.  Comparing a string with a
number raises in Python; the benchmark keys are homogeneous, so that case
is modelled as an arbitrary `false`. -/
def jLtB (a c : JVal) : Bool :=
  match a, c with
  | .s x, .s y => strLtB x y
  | a, c =>
    match toNumO a, toNumO c with
    | some x, some y => decide (x < y)
    | _, _ => false

/-!  Median, as `statistics.median` computes it: sort, take the middle
element for odd length, the mean of the two middle elements for even
length.  Python's `sorted` is a stable sort; `List.insertionSort` is too,
so the sorted lists agree. -/

/-- Sorted copy of a rational list (ascending, stable). -/
def sortQ (l : List ℚ) : List ℚ := List.insertionSort (fun a c => a ≤ c) l

/-- Models `statistics.median` on a list of numbers.  The Python function
raises on an empty list; every call site in the scripts passes a nonempty
list, and the Lean embedding returns junk 0 there. -/
def medianQ (l : List ℚ) : ℚ :=
  let srt := sortQ l
  let n := srt.length
  if n % 2 = 1 then srt.getD (n / 2) 0
  else if n = 0 then 0
  else (srt.getD (n / 2 - 1) 0 + srt.getD (n / 2) 0) / 2

/-- Models Python's `round` to an integer: round half to even. -/
def pyRound (q : ℚ) : ℤ :=
  let fl := ⌊q⌋
  let frac := q - fl
  if frac < 1 / 2 then fl
  else if 1 / 2 < frac then fl + 1
  else if fl % 2 = 0 then fl else fl + 1

/-- benchmark/lib/aggregation.py `median_value(values)`: compute the median,
re-cast to int (Python `int(round(med))`) when every input is an int and not
a bool, else return the float median. -/
def median_value (values : List JVal) : JVal :=
  let med := medianQ (values.map toQ)
  if values.all isIntJ then .i (pyRound med) else .f med

/-!  benchmark/lib/aggregation.py `aggregate_dicts(samples)`.

The Python function starts from `merged = dict(samples[0])` and then, for
every key present in all samples, overwrites `merged[key]` with the reduced
value; a key assigned this way is necessarily a key of `samples[0]` (it is
present in *all* samples), so assignment keeps its position, and every key
of `samples[0]` missing from some sample keeps its `samples[0]` value.  The
function below is that same computation expressed directly on the first
sample's entries. -/

/-- Reduction applied to the key `k` of the first sample (current value `v`)
given the whole group: if the key is present in every sample, reduce all
booleans by AND, all numbers by `median_value`, anything else to the first
value; if the key is missing from some sample, keep `v` (the Python code's
`continue`). -/
def reduce_group_value (samples : List Record) (k : String) (v : JVal) : JVal :=
  let values := samples.filterMap (alookup k)
  if values.length = samples.length then
    if values.all isBoolJ then .b (values.all boolVal)
    else if values.all isNumJ then median_value values
    else values.headD v
  else v

/-- benchmark/lib/aggregation.py `aggregate_dicts`. -/
def aggregate_dicts (samples : List Record) : Record :=
  match samples with
  | [] => []
  | s0 :: _ => s0.map (fun p => (p.1, reduce_group_value samples p.1 p.2))

/-!  benchmark/lib/aggregation.py macro-payload aggregation. -/

/-- A macro results payload: its `results` array of rows plus the rest of
the payload dict (`total_time_sec`, `run_type`, timestamps, ...). -/
structure Payload where
  meta : Record
  results : List Record
deriving DecidableEq

/-- Workload key tuple of a macro row. -/
abbrev K5 := JVal × JVal × JVal × JVal × JVal

/-- benchmark/lib/aggregation.py `_macro_row_key(row)`: the grouping key
`(dataset, mode, scenario_id, access_path, selected_columns)` with the
source's defaults.  Note the raw `mode` string is used, tracking suffix
included. -/
def macro_row_key (row : Record) : K5 :=
  (getD row "dataset" (.s "?"),
   getD row "mode" (.s "?"),
   getD row "scenario_id" (.s "baseline"),
   getD row "access_path" (.s "-"),
   getD row "selected_columns" (getD row "num_columns" (.i 0)))

/-- Python `==` on key tuples (dict key equality of `result_map`). -/
def keyEq5 (a c : K5) : Bool :=
  pyEqJ a.1 c.1 && pyEqJ a.2.1 c.2.1 && pyEqJ a.2.2.1 c.2.2.1 &&
  pyEqJ a.2.2.2.1 c.2.2.2.1 && pyEqJ a.2.2.2.2 c.2.2.2.2

/-- Python `<` on key tuples (lexicographic, `==` deciding ties). -/
def k5LtB (a c : K5) : Bool :=
  jLtB a.1 c.1 ||
  (pyEqJ a.1 c.1 && (jLtB a.2.1 c.2.1 ||
    (pyEqJ a.2.1 c.2.1 && (jLtB a.2.2.1 c.2.2.1 ||
      (pyEqJ a.2.2.1 c.2.2.1 && (jLtB a.2.2.2.1 c.2.2.2.1 ||
        (pyEqJ a.2.2.2.1 c.2.2.2.1 && jLtB a.2.2.2.2 c.2.2.2.2)))))))

/-- All rows of all payloads, in payload order (the iteration order the
Python code feeds `result_map`). -/
def allRows (payloads : List Payload) : List Record :=
  (payloads.map Payload.results).flatten

/-- The group `result_map[key]` collects, in iteration order, every row
whose key is `==`-equal to it. -/
def groupOf (payloads : List Payload) (k : K5) : List Record :=
  (allRows payloads).filter (fun r => keyEq5 (macro_row_key r) k)

/-- First-occurrence list of distinct row keys: the keys of `result_map`
in dict insertion order. -/
def distinctKeys (rows : List Record) : List K5 :=
  rows.foldl
    (fun acc r =>
      if acc.any (fun k => keyEq5 k (macro_row_key r)) then acc
      else acc ++ [macro_row_key r])
    []

/-- Aggregated macro payload: the mutated copy of the first payload's dict
plus the merged rows and the `aggregation` annotation block
`{method: "median", repetitions: N}`. -/
structure AggOut where
  meta : Record
  results : List Record
  aggMethod : String
  aggReps : ℕ
deriving DecidableEq

/-- benchmark/lib/aggregation.py `aggregate_macro_payloads(payloads,
run_type)`: group all rows by `_macro_row_key`, reduce each group with
`aggregate_dicts`, emit groups in sorted key order; the output dict is a
copy of the first payload with `total_time_sec` reduced to the float median
of the numeric `total_time_sec` values (bools count, `isinstance(...,
(int, float))`), `run_type` overwritten, and the annotation added. -/
def aggregate_macro_payloads (payloads : List Payload) (run_type : String) :
    Option AggOut :=
  match payloads with
  | [] => none
  | p0 :: _ =>
    let keys := List.insertionSort (fun a c => k5LtB c a = false)
      (distinctKeys (allRows payloads))
    let merged_rows := keys.map (fun k => aggregate_dicts (groupOf payloads k))
    let totals := payloads.filterMap (fun p => (alookup "total_time_sec" p.meta).bind toNumO)
    let meta1 :=
      if totals = [] then p0.meta
      else dictSet p0.meta "total_time_sec" (.f (medianQ totals))
    let meta2 := dictSet meta1 "run_type" (.s run_type)
    some { meta := meta2, results := merged_rows,
           aggMethod := "median", aggReps := payloads.length }

/-!  benchmark/lib/runner.py: stripping of skipped rows after a macro run. -/

/-- The row filter of runner.py line 167: keep a row iff
`r.get("status") != "skipped"` (a missing status is kept). -/
def keepRow (r : Record) : Bool :=
  match alookup "status" r with
  | some v => ! pyEqJ v (.s "skipped")
  | none => true

/-- benchmark/lib/runner.py lines 165-172 of `run_macro`: strip rows whose
`status` is `"skipped"` from the payload before it is stored and returned,
recording `skipped_count` when any row was dropped. -/
def strip_skipped (p : Payload) : Payload :=
  let ok_rows := p.results.filter keepRow
  let skipped_count := p.results.length - ok_rows.length
  if skipped_count > 0 then
    { meta := dictSet p.meta "skipped_count" (.i skipped_count),
      results := ok_rows }
  else p

/-!  benchmark/lib/constants.py `mode_base`: strip the tracking suffix
matched by the anchored regex `\s*\[trk=[^\]]*\]$`.  The regex matches a
run of whitespace, the literal `[trk=`, any characters other than a closing
bracket, a closing bracket, the end of the string; `re.sub` removes the
leftmost such match, i.e. the earliest `[trk=` lying after the
second-to-last closing bracket, together with the whitespace run directly
before it.  We implement this on the reversed character list. -/

/-- Python's `\s` on the ASCII range. -/
def isPySpace (c : Char) : Bool :=
  c = ' ' || c = '\t' || c = '\n' || c = '\r' || c = '\x0b' || c = '\x0c'

/-- On a reversed, bracket-free character region, split at the occurrence of
reversed `[trk=` (the list `=`, `k`, `r`, `t`, `[`) closest to the region's
end, i.e. the leftmost `[trk=` of the original string; returns the part
before (reversed content of the bracket pair) and after (reversed prefix of
the string). -/
def lastTrkSplit : List Char → Option (List Char × List Char)
  | [] => none
  | c :: cs =>
    match lastTrkSplit cs with
    | some (a, rest) => some (c :: a, rest)
    | none =>
      match c :: cs with
      | '=' :: 'k' :: 'r' :: 't' :: '[' :: rest => some ([], rest)
      | _ => none

/-- benchmark/lib/constants.py `mode_base(raw_mode)`: strip a trailing
tracking suffix such as `[trk=off]`, plus the whitespace directly before
it; any other string is returned unchanged. -/
def mode_base (m : String) : String :=
  match m.data.reverse with
  | ']' :: rest =>
    let region := rest.takeWhile (fun c => c ≠ ']')
    let beyond := rest.drop region.length
    match lastTrkSplit region with
    | some (_, after) => String.mk ((after.dropWhile isPySpace) ++ beyond).reverse
    | none => m
  | _ => m

/-- Tracking-suffix stripping lifted to a JVal (the spec's key applies it to
the mode string; non-strings pass through). -/
def modeBaseJ : JVal → JVal
  | .s str => .s (mode_base str)
  | v => v

/-- Modelled from the spec: the WorkloadKey of section 3, the tuple
`(dataset, mode-without-tracking-suffix, scenario_id, access_path,
selected_columns)`.  This definition follows the spec's words (it is the
comparison point for the refinement claim about workload identity); the
code's own grouping key is `macro_row_key`, which keeps the raw mode. -/
def specWorkloadKey (row : Record) : K5 :=
  (getD row "dataset" (.s "?"),
   modeBaseJ (getD row "mode" (.s "?")),
   getD row "scenario_id" (.s "baseline"),
   getD row "access_path" (.s "-"),
   getD row "selected_columns" (getD row "num_columns" (.i 0)))

/-!  benchmark/compare_runs.py: loading, mismatch guard, comparison. -/

/-- Key of the comparison-side result maps: the `(dataset, mode)` tuple. -/
abbrev K2 := JVal × JVal

/-- Python `==` on `(dataset, mode)` tuples. -/
def pyEqK2 (a c : K2) : Bool := pyEqJ a.1 c.1 && pyEqJ a.2 c.2

/-- Python `<` on `(dataset, mode)` tuples. -/
def k2LtB (a c : K2) : Bool :=
  jLtB a.1 c.1 || (pyEqJ a.1 c.1 && jLtB a.2 c.2)

/-- compare_runs.py `load_macro_results` keying: `(r.get("dataset", "?"),
r.get("mode", "?"))`. -/
def loadKey (r : Record) : K2 :=
  (getD r "dataset" (.s "?"), getD r "mode" (.s "?"))

/-- Dict assignment on a `(dataset, mode)`-keyed map: an existing
`==`-equal key keeps its position and key object, a new key is appended. -/
def assocSetK2 (m : List (K2 × Record)) (k : K2) (v : Record) :
    List (K2 × Record) :=
  if m.any (fun p => pyEqK2 p.1 k) then
    m.map (fun p => if pyEqK2 p.1 k then (p.1, v) else p)
  else m ++ [(k, v)]

/-- Lookup in a `(dataset, mode)`-keyed map by Python `==`. -/
def lookupK2 (m : List (K2 × Record)) (k : K2) : Option Record :=
  (m.find? (fun p => pyEqK2 p.1 k)).map (fun p => p.2)

/-- compare_runs.py `load_macro_results(run_dir)` on the decoded `results`
array: build the dict keyed by `(dataset, mode)`; a later row with the same
key overwrites an earlier one. -/
def load_macro_results (results : List Record) : List (K2 × Record) :=
  results.foldl (fun m r => assocSetK2 m (loadKey r) r) []

/-- compare_runs.py `find_row_count_mismatches(baseline, candidate)`:
over the sorted shared keys, report every key where both sides carry a
`num_rows` and the two values differ (Python `!=`). -/
def find_row_count_mismatches (baseline candidate : List (K2 × Record)) :
    List (K2 × JVal × JVal) :=
  let shared := (baseline.map (fun p => p.1)).filter
    (fun k => candidate.any (fun p => pyEqK2 p.1 k))
  let sharedSorted := List.insertionSort (fun a c => k2LtB c a = false) shared
  sharedSorted.filterMap (fun k =>
    match lookupK2 baseline k, lookupK2 candidate k with
    | some br, some cr =>
      match alookup "num_rows" br, alookup "num_rows" cr with
      | some x, some y => if pyEqJ x y then none else some (k, x, y)
      | _, _ => none
    | _, _ => none)

/-- One comparison row of compare_runs.py `compare_results` (the
ComparisonRow of the spec's data model). -/
structure CompRow where
  dataset : JVal
  mode : JVal
  baseline_write_ms : ℚ
  candidate_write_ms : ℚ
  write_delta_pct : ℚ
  baseline_read_ms : ℚ
  candidate_read_ms : ℚ
  read_delta_pct : ℚ
  baseline_total_ms : ℚ
  candidate_total_ms : ℚ
  total_delta_pct : ℚ
  baseline_size : ℚ
  candidate_size : ℚ
  size_delta_pct : ℚ
  regression : Bool
  regression_fields : List String
deriving DecidableEq

/-- compare_runs.py `delta_pct` (nested in `compare_results`): percentage
delta, defined as 0 when the baseline value is 0. -/
def delta_pct (base_val cand_val : ℚ) : ℚ :=
  if base_val = 0 then 0 else (cand_val - base_val) / base_val * 100

/-- Numeric field fetch `r.get(key, 0)` followed by arithmetic use. -/
def numField (r : Record) (k : String) : ℚ := toQ (getD r k (.i 0))

/-- Body of compare_runs.py `compare_results` for one matched key: the four
deltas, the regressed-field list built in write, read, total, size order
(strict `>` against the threshold), and the overall flag. -/
def compareOne (k : K2) (base cand : Record) (threshold_pct : ℚ) : CompRow :=
  let base_w := numField base "write_time_ms"
  let cand_w := numField cand "write_time_ms"
  let base_r := numField base "read_time_ms"
  let cand_r := numField cand "read_time_ms"
  let base_total := base_w + base_r
  let cand_total := cand_w + cand_r
  let base_sz := numField base "file_size"
  let cand_sz := numField cand "file_size"
  let w_delta := delta_pct base_w cand_w
  let r_delta := delta_pct base_r cand_r
  let t_delta := delta_pct base_total cand_total
  let s_delta := delta_pct base_sz cand_sz
  let regression_fields :=
    (if w_delta > threshold_pct then ["write"] else []) ++
    (if r_delta > threshold_pct then ["read"] else []) ++
    (if t_delta > threshold_pct then ["total"] else []) ++
    (if s_delta > threshold_pct then ["size"] else [])
  { dataset := k.1, mode := k.2,
    baseline_write_ms := base_w, candidate_write_ms := cand_w,
    write_delta_pct := w_delta,
    baseline_read_ms := base_r, candidate_read_ms := cand_r,
    read_delta_pct := r_delta,
    baseline_total_ms := base_total, candidate_total_ms := cand_total,
    total_delta_pct := t_delta,
    baseline_size := base_sz, candidate_size := cand_sz,
    size_delta_pct := s_delta,
    regression := regression_fields.length > 0,
    regression_fields := regression_fields }

/-- First-occurrence list of distinct `(dataset, mode)` keys (the union
`set(baseline) | set(candidate)` before sorting). -/
def distinctK2 (ks : List K2) : List K2 :=
  ks.foldl (fun acc k => if acc.any (fun k2 => pyEqK2 k2 k) then acc else acc ++ [k]) []

/-- compare_runs.py `compare_results(baseline, candidate, threshold_pct)`:
one CompRow per sorted key present (and truthy, i.e. a non-empty dict) on
both sides. -/
def compare_results (baseline candidate : List (K2 × Record))
    (threshold_pct : ℚ) : List CompRow :=
  let all_keys := List.insertionSort (fun a c => k2LtB c a = false)
    (distinctK2 (baseline.map (fun p => p.1) ++ candidate.map (fun p => p.1)))
  all_keys.filterMap (fun k =>
    match lookupK2 baseline k, lookupK2 candidate k with
    | some base, some cand =>
      if base = [] ∨ cand = [] then none
      else some (compareOne k base cand threshold_pct)
    | _, _ => none)

/-!  compare_runs.py leaderboard. -/

/-- One leaderboard entry as `update_leaderboard` creates it (the
`timestamp` field, `datetime.now()`, is outside the model). -/
structure LBEntry where
  dataset : JVal
  mode : JVal
  best_total_ms : ℚ
  best_write_ms : ℚ
  best_read_ms : ℚ
  file_size : JVal
  num_rows : JVal
  run : String
  git_version : String
deriving DecidableEq

/-- Python `str()` of a scalar, used by the f-string key
`f"{ds}/{mode}"` (datasets and modes are strings in practice). -/
def jStr : JVal → String
  | .s x => x
  | .i n => toString n
  | .f q => toString q
  | .b true => "True"
  | .b false => "False"

/-- Lookup in the string-keyed `leaderboard["entries"]` dict. -/
def lbLookup (k : String) : List (String × LBEntry) → Option LBEntry
  | [] => none
  | p :: t => if p.1 = k then some p.2 else lbLookup k t

/-- Dict assignment on the entries map: existing key keeps its position. -/
def lbSet (m : List (String × LBEntry)) (k : String) (v : LBEntry) :
    List (String × LBEntry) :=
  if m.any (fun p => p.1 = k) then
    m.map (fun p => if p.1 = k then (p.1, v) else p)
  else m ++ [(k, v)]

/-- The entry record compare_runs.py builds when a result becomes the new
best for its key. -/
def mkLBEntry (k : K2) (r : Record) (total : ℚ) (run_dir_name : String)
    (git_version : Option String) : LBEntry :=
  { dataset := k.1, mode := k.2,
    best_total_ms := total,
    best_write_ms := numField r "write_time_ms",
    best_read_ms := numField r "read_time_ms",
    file_size := getD r "file_size" (.i 0),
    num_rows := getD r "num_rows" (.i 0),
    run := run_dir_name,
    git_version := git_version.getD "unknown" }

/-- The candidate total `r.get("write_time_ms", 0) + r.get("read_time_ms", 0)`. -/
def lbTotal (r : Record) : ℚ :=
  numField r "write_time_ms" + numField r "read_time_ms"

/-- One iteration of the `update_leaderboard` loop: skip a result whose
total is `<= 0`; otherwise create the entry when the key is new or the
total strictly beats the stored best. -/
def lbStep (run_dir_name : String) (git_version : Option String)
    (acc : List (String × LBEntry) × Bool) (kr : K2 × Record) :
    List (String × LBEntry) × Bool :=
  let total := lbTotal kr.2
  if total ≤ 0 then acc
  else
    let key := jStr kr.1.1 ++ "/" ++ jStr kr.1.2
    match lbLookup key acc.1 with
    | none => (lbSet acc.1 key (mkLBEntry kr.1 kr.2 total run_dir_name git_version), true)
    | some e =>
      if total < e.best_total_ms then
        (lbSet acc.1 key (mkLBEntry kr.1 kr.2 total run_dir_name git_version), true)
      else acc

/-- compare_runs.py `update_leaderboard(leaderboard, results, run_dir_name,
git_version)`: fold the step over the results in dict order; the boolean is
the function's `updated` return value (when true the caller also refreshes
the store's `updated` timestamp). -/
def update_leaderboard (entries : List (String × LBEntry))
    (results : List (K2 × Record)) (run_dir_name : String)
    (git_version : Option String) : List (String × LBEntry) × Bool :=
  results.foldl (lbStep run_dir_name git_version) (entries, false)

/-!  compare_runs.py `main`: the decision logic of the comparison path,
after the two run directories have been resolved and their `results`
arrays decoded.  Earlier argument/IO failures (missing directory, fewer
than two runs for `--latest`) also exit 1 but are outside the comparison
outcome this models. -/

/-- Exit code and produced comparison rows of the comparison path of
compare_runs.py `main`: empty result maps exit 1 before comparing; a
row-count mismatch without `--allow-mismatched-rows` exits 2 with no rows;
otherwise the comparison runs and the exit code is 1 iff some row
regressed. -/
def main_compare (baseline candidate : List (K2 × Record))
    (allow_mismatched_rows : Bool) (threshold : ℚ) : ℕ × List CompRow :=
  if baseline = [] then (1, [])
  else if candidate = [] then (1, [])
  else
    let mismatches := find_row_count_mismatches baseline candidate
    if mismatches ≠ [] ∧ allow_mismatched_rows = false then (2, [])
    else
      let comparisons := compare_results baseline candidate threshold
      if comparisons.any (fun c => c.regression) then (1, comparisons)
      else (0, comparisons)

/-!  benchmark/run_interleaved_pairs.py and benchmark/lib/runner.py:
tolerance of a non-zero exit code when a result file was produced. -/

/-- run_interleaved_pairs.py `_require_output_or_success(code, output_file,
label)`: succeed iff the output file exists with size > 0; on success with a
non-zero exit code only a warning is printed (the returned boolean); any
other combination raises. -/
def require_output_or_success (code : ℤ) (outputFileExists : Bool)
    (outputFileSize : ℕ) : Except String Bool :=
  if outputFileExists = true ∧ outputFileSize > 0 then
    .ok (decide (code ≠ 0))
  else
    .error "failed with no usable output file"

/-- State of a macro run's output file as `run_macro` observes it: missing,
present but not decodable as JSON (e.g. empty), or a decoded payload. -/
inductive MacroOutFile where
  | missing
  | unparseable
  | parsed (p : Payload)

/-- benchmark/lib/runner.py `run_macro`, the post-execution checks (lines
149-173): a non-zero exit with no output file raises; with an output file
it only warns (the returned boolean) and proceeds; a missing file raises
even on exit 0; `read_json` then raises on an undecodable file; finally
skipped rows are stripped. -/
def runMacroCheck (code : ℤ) (file : MacroOutFile) :
    Except String (Payload × Bool) :=
  match file with
  | .missing =>
    if code ≠ 0 then .error "Macro benchmark failed with non-zero exit code"
    else .error "completed without results file"
  | .unparseable => .error "read_json failed on results file"
  | .parsed p => .ok (strip_skipped p, decide (code ≠ 0))

/-!  benchmark/lib/discovery.py `latest_clean_run`. -/

/-- One historical run directory as `latest_clean_run` probes it: the git
bucket directory name it sits in, whether `platform.json` exists, which of
the three macro result files and the micro result file exist, the
directory's mtime, and whether it is the current run (excluded). -/
structure RunDir where
  ident : ℕ
  bucketName : String
  hasPlatform : Bool
  hasMacroSmall : Bool
  hasMacroLarge : Bool
  hasMacroCombined : Bool
  hasMicro : Bool
  mtime : ℤ
  isCurrent : Bool
deriving DecidableEq

/-- Models `"wip" in git_bucket.name.lower()`. -/
def containsWipChars : List Char → Bool
  | [] => false
  | c :: cs =>
    (match c :: cs with
     | 'w' :: 'i' :: 'p' :: _ => true
     | _ => false) || containsWipChars cs

/-- Substring test for `"wip"` on the lower-cased bucket name. -/
def bucketIsWip (d : RunDir) : Bool :=
  containsWipChars (d.bucketName.data.map Char.toLower)

/-- The macro run types whose result files the candidate directory holds
(`macro_small_results.json`, `macro_large_results.json`,
`macro_results.json`). -/
def macroTypesFound (d : RunDir) : List String :=
  (if d.hasMacroSmall then ["MACRO-SMALL"] else []) ++
  (if d.hasMacroLarge then ["MACRO-LARGE"] else []) ++
  (if d.hasMacroCombined then ["MACRO"] else [])

/-- Filter of `latest_clean_run`: not the current run, not in a wip bucket,
has `platform.json`, and has at least one macro or micro result file. -/
def usableCandidate (d : RunDir) : Bool :=
  ! d.isCurrent && ! bucketIsWip d && d.hasPlatform &&
  (! (macroTypesFound d).isEmpty || d.hasMicro)

/-- Count of required macro types the candidate has
(`len(required_macro_types & macro_types_found)`). -/
def macroOverlap (required : List String) (d : RunDir) : ℕ :=
  ((required.dedup).filter (fun t => t ∈ macroTypesFound d)).length

/-- Count of required macro types the candidate lacks
(`len(required_macro_types - macro_types_found)`). -/
def missingMacro (required : List String) (d : RunDir) : ℕ :=
  ((required.dedup).filter (fun t => t ∉ macroTypesFound d)).length

/-- Missing-micro indicator (`1 if (require_micro and not has_micro) else 0`). -/
def missingMicro (require_micro : Bool) (d : RunDir) : ℕ :=
  if require_micro ∧ d.hasMicro = false then 1 else 0

/-- The sort key `(exact_match, -missing_total, macro_overlap, mtime)` of a
candidate, as a lexicographic 4-tuple; Python's descending sort on this key
is the descending lexicographic order on it. -/
def scoreKey (required : List String) (require_micro : Bool) (d : RunDir) :
    Bool ×ₗ ℤ ×ₗ ℕ ×ₗ ℤ :=
  let missing_total := missingMacro required d + missingMicro require_micro d
  toLex (decide (missingMacro required d = 0 ∧ missingMicro require_micro d = 0),
    toLex (-(missing_total : ℤ), toLex (macroOverlap required d, d.mtime)))

/-- Modelled from the spec: the ranking key as the claim states it — exact
coverage first, then fewest missing required run-types, then greatest
overlap of *run-types* with the current run, micro included (the current
run's run-types are the required macro types plus, when required, the micro
suite), then mtime.  This definition follows the claim's words and is the
comparison point for the ranking claim; the code's own key is `scoreKey`,
whose third component counts only the macro overlap. -/
def specScoreKey (required : List String) (require_micro : Bool) (d : RunDir) :
    Bool ×ₗ ℤ ×ₗ ℕ ×ₗ ℤ :=
  let missing_total := missingMacro required d + missingMicro require_micro d
  toLex (decide (missingMacro required d = 0 ∧ missingMicro require_micro d = 0),
    toLex (-(missing_total : ℤ),
      toLex (macroOverlap required d +
        (if require_micro ∧ d.hasMicro = true then 1 else 0), d.mtime)))

/-- benchmark/lib/discovery.py `latest_clean_run`: filter the candidate
directories, sort them descending by score key (stable, like Python's
`list.sort(key=..., reverse=True)`), and return the first, or nothing when
no candidate survives. -/
def latest_clean_run (dirs : List RunDir) (required : List String)
    (require_micro : Bool) : Option RunDir :=
  let candidates := dirs.filter usableCandidate
  match List.insertionSort
      (fun a c => scoreKey required require_micro c ≤ scoreKey required require_micro a)
      candidates with
  | [] => none
  | d :: _ => some d

/-- Leaderboard entry maps reachable by this engine: the empty store (a
fresh `leaderboard.json`) and everything `update_leaderboard` produces from
a reachable store. -/
inductive ReachableLB : List (String × LBEntry) → Prop where
  | empty : ReachableLB []
  | step (es : List (String × LBEntry)) (results : List (K2 × Record))
      (rn : String) (gv : Option String) :
      ReachableLB es → ReachableLB (update_leaderboard es results rn gv).1

/-!  Sanity theorems: the embedding reproduces the behaviours the sources
document on their own examples. -/

/-- Sanity check from the spec's tests: the integer median of 10, 12, 11 is
the integer 11. -/
theorem median_value_int_example :
    median_value [.i 10, .i 12, .i 11] = .i 11 := by
  norm_num [median_value, medianQ, sortQ, List.insertionSort, List.orderedInsert,
    toQ, toNumO, isIntJ, pyRound, List.all, List.getD]

/-- Sanity check from the spec's tests: the median of the floats 10.0 and
12.5 is the float 11.25. -/
theorem median_value_float_example :
    median_value [.f 10, .f (25 / 2)] = .f (45 / 4) := by
  norm_num [median_value, medianQ, sortQ, List.insertionSort, List.orderedInsert,
    toQ, toNumO, isIntJ, pyRound, List.all, List.getD]

/-- Sanity check from constants.py's docstring: the tracking suffix is
stripped. -/
theorem mode_base_strip_example :
    mode_base "BCSV Flexible [trk=off]" = "BCSV Flexible" := by decide

/-- Sanity check from constants.py's docstring: a plain mode string is
unchanged. -/
theorem mode_base_plain_example : mode_base "CSV" = "CSV" := by decide

/-!  Helper lemmas. -/

/-- Lookup through a map that rewrites values but keeps keys. -/
theorem alookup_map_keyed (l : Record) (g : String → JVal → JVal) (k : String) :
    alookup k (l.map (fun p => (p.1, g p.1 p.2))) = (alookup k l).map (g k) := by
  induction l with
  | nil => rfl
  | cons a t ih =>
    by_cases h : a.1 = k
    · simp [alookup, h]
    · simp [alookup, h, ih]

/-- A filter that drops nothing dropped nothing: every element satisfies
the predicate. -/
theorem all_of_length_filter {α : Type} (p : α → Bool) :
    ∀ l : List α, (l.filter p).length = l.length → ∀ a ∈ l, p a = true := by
  intro l
  induction l with
  | nil => intro _ a ha; cases ha
  | cons x t ih =>
    intro h a ha
    by_cases hx : p x = true
    · rcases List.mem_cons.1 ha with rfl | hat
      · exact hx
      · exact ih (by simpa [List.filter, hx] using h) a hat
    · exfalso
      have hle := List.length_filter_le p t
      simp [List.filter, Bool.eq_false_iff.2 hx] at h
      omega

/-- A filterMap whose output is as long as its input succeeds everywhere. -/
theorem isSome_of_length_filterMap {α β : Type} (f : α → Option β) :
    ∀ l : List α, (l.filterMap f).length = l.length →
      ∀ a ∈ l, (f a).isSome = true := by
  intro l
  induction l with
  | nil => intro _ a ha; cases ha
  | cons x t ih =>
    intro h a ha
    cases hx : f x with
    | none =>
      exfalso
      have hle := List.length_filterMap_le f t
      simp [List.filterMap_cons, hx] at h
      omega
    | some v =>
      rcases List.mem_cons.1 ha with rfl | hat
      · simp [hx]
      · exact ih (by simpa [List.filterMap_cons, hx] using h) a hat

/-- Permuted lists agree on `all`. -/
theorem all_perm {α : Type} {l l' : List α} (h : l.Perm l') (p : α → Bool) :
    l.all p = l'.all p := by
  cases hb : l'.all p with
  | true =>
    rw [List.all_eq_true] at hb ⊢
    exact fun x hx => hb x (h.mem_iff.1 hx)
  | false =>
    rw [← Bool.not_eq_true] at hb ⊢
    rw [List.all_eq_true] at hb ⊢
    exact fun hc => hb (fun x hx => hc x (h.mem_iff.2 hx))

/-- Flattening permuted lists of lists gives permuted lists. -/
theorem flatten_perm {α : Type} : ∀ {l₁ l₂ : List (List α)}, l₁.Perm l₂ →
    l₁.flatten.Perm l₂.flatten := by
  intro l₁ l₂ h
  induction h with
  | nil => exact List.Perm.refl _
  | cons x _ ih => simpa using ih.append_left x
  | swap x y l =>
    simp only [List.flatten_cons, ← List.append_assoc]
    exact (@List.perm_append_comm _ y x).append_right l.flatten
  | trans _ _ ih1 ih2 => exact ih1.trans ih2

/-- The stable sort underlying `medianQ` is a function of the multiset of
inputs. -/
theorem sortQ_perm {l l' : List ℚ} (h : l.Perm l') : sortQ l = sortQ l' := by
  refine @List.eq_of_perm_of_sorted ℚ (fun a c : ℚ => a ≤ c) ?_ _ _
    (((List.perm_insertionSort _ l).trans h).trans (List.perm_insertionSort _ l').symm)
    ?_ ?_
  · exact ⟨fun a c hac hca => le_antisymm hac hca⟩
  · exact List.sorted_insertionSort _ l
  · exact List.sorted_insertionSort _ l'

/-- The median is a function of the multiset of inputs. -/
theorem medianQ_perm {l l' : List ℚ} (h : l.Perm l') : medianQ l = medianQ l' := by
  unfold medianQ
  rw [sortQ_perm h]

/-- The int/float-preserving median value is a function of the multiset of
inputs. -/
theorem median_value_perm {vs vs' : List JVal} (h : vs.Perm vs') :
    median_value vs = median_value vs' := by
  unfold median_value
  rw [medianQ_perm (h.map toQ), all_perm h isIntJ]

/-!  C9 — error tolerance of the pair runner and the sequential macro
runner. -/

/-- C9: for a benchmark process of the interleaved pair runner, a non-zero
exit code with a non-empty result file only warns and proceeds, while a
non-zero exit code without a non-empty result file raises; for the
sequential macro runner, a non-zero exit code with a decodable result file
only warns and proceeds (returning the stripped payload), while a non-zero
exit code with a missing or undecodable result file aborts the run. -/
theorem c9_nonzero_exit_tolerated_iff_output (code : ℤ) (sz : ℕ) (p : Payload)
    (hc : code ≠ 0) :
    (0 < sz → require_output_or_success code true sz = .ok true) ∧
    (∀ (ex : Bool) (sz' : ℕ), ¬ (ex = true ∧ 0 < sz') →
      require_output_or_success code ex sz' =
        .error "failed with no usable output file") ∧
    runMacroCheck code (.parsed p) = .ok (strip_skipped p, true) ∧
    (runMacroCheck code .missing).isOk = false ∧
    (runMacroCheck code .unparseable).isOk = false := by
  refine ⟨?_, ?_, ?_, ?_, ?_⟩
  · intro hsz
    simp [require_output_or_success, hsz, hc]
  · intro ex sz' hno
    simp [require_output_or_success, hno]
  · simp [runMacroCheck, hc]
  · simp [runMacroCheck, hc, Except.isOk, Except.toBool]
  · simp [runMacroCheck, Except.isOk, Except.toBool]

/-- Witness for C9 at a concrete exit code, file size and payload. -/
theorem c9_witness :
    require_output_or_success 7 true 42 = .ok true ∧
    require_output_or_success 7 false 42 =
      .error "failed with no usable output file" ∧
    runMacroCheck 7 (.parsed ⟨[], []⟩) = .ok (strip_skipped ⟨[], []⟩, true) := by
  have h := c9_nonzero_exit_tolerated_iff_output 7 42 ⟨[], []⟩ (by decide)
  exact ⟨h.1 (by decide), h.2.1 false 42 (by simp), h.2.2.1⟩

/-!  C3 — a field present in only some group members. -/

/-- C3 counterexample: the claim says a field present in only some group
members is absent from the aggregated record, but aggregating the group
`[{a: 1, b: 2}, {a: 3}]` keeps `b` with the first member's value 2 (the
Python code copies `dict(samples[0])` and only overwrites keys present in
all samples). -/
theorem c3_counterexample :
    alookup "b" (aggregate_dicts [[("a", JVal.i 1), ("b", JVal.i 2)], [("a", JVal.i 3)]]) =
      some (JVal.i 2) := by decide

/-- C3 amended: a field present in only some (not all) group members is
excluded from the median reduction, and its fate follows the first group
member: it is absent from the aggregate iff it is absent from the first
member, and otherwise carries the first member's value unchanged. -/
theorem c3_partial_field_follows_first_sample (s0 : Record) (rest : List Record)
    (k : String)
    (h : ((s0 :: rest).filterMap (alookup k)).length ≠ (s0 :: rest).length) :
    alookup k (aggregate_dicts (s0 :: rest)) = alookup k s0 := by
  have hred : ∀ v, reduce_group_value (s0 :: rest) k v = v := by
    intro v
    simp only [reduce_group_value]
    rw [if_neg h]
  calc alookup k (aggregate_dicts (s0 :: rest))
      = (alookup k s0).map (reduce_group_value (s0 :: rest) k) :=
        alookup_map_keyed s0 (reduce_group_value (s0 :: rest)) k
    _ = alookup k s0 := by cases hv : alookup k s0 <;> simp [hred]

/-- Witness for C3 at a concrete group in which the field `b` is present in
the first member only. -/
theorem c3_witness :
    alookup "b" (aggregate_dicts [[("b", JVal.i 2)], []]) =
      alookup "b" [("b", JVal.i 2)] :=
  c3_partial_field_follows_first_sample [("b", JVal.i 2)] [[]] "b" (by decide)

/-!  Leaderboard lemmas. -/

/-- Lookup after in-place value replacement of a key. -/
theorem lbLookup_map_set (m : List (String × LBEntry)) (k : String) (v : LBEntry) :
    lbLookup k (m.map (fun p => if p.1 = k then (p.1, v) else p)) =
      (lbLookup k m).map (fun _ => v) := by
  induction m with
  | nil => rfl
  | cons a t ih =>
    by_cases ha : a.1 = k
    · simp [lbLookup, ha]
    · simp [lbLookup, ha, ih]

/-- In-place value replacement of one key does not touch other keys. -/
theorem lbLookup_map_set_ne (m : List (String × LBEntry)) (k k' : String)
    (v : LBEntry) (h : k' ≠ k) :
    lbLookup k' (m.map (fun p => if p.1 = k then (p.1, v) else p)) =
      lbLookup k' m := by
  induction m with
  | nil => rfl
  | cons a t ih =>
    by_cases ha : a.1 = k
    · have hkk : ¬ k = k' := fun hk => h hk.symm
      simp [lbLookup, ha, hkk, ih]
    · by_cases ha' : a.1 = k'
      · simp [lbLookup, ha, ha', h]
      · simp [lbLookup, ha, ha', ih]

/-- A key that is in the map is found. -/
theorem lbLookup_isSome_of_any (m : List (String × LBEntry)) (k : String)
    (h : m.any (fun p => p.1 = k) = true) : ∃ e, lbLookup k m = some e := by
  induction m with
  | nil => cases h
  | cons a t ih =>
    by_cases ha : a.1 = k
    · exact ⟨a.2, by simp [lbLookup, ha]⟩
    · have ht : t.any (fun p => p.1 = k) = true := by simpa [ha] using h
      obtain ⟨e, he⟩ := ih ht
      exact ⟨e, by simp [lbLookup, ha, he]⟩

/-- A key that is in no entry is not found. -/
theorem lbLookup_none_of_not_any (m : List (String × LBEntry)) (k : String)
    (h : ¬ m.any (fun p => p.1 = k) = true) : lbLookup k m = none := by
  induction m with
  | nil => rfl
  | cons a t ih =>
    have ha : ¬ a.1 = k := fun hk => h (by simp [hk])
    have ht : ¬ t.any (fun p => p.1 = k) = true := fun hk => h (by simp [hk])
    simp [lbLookup, ha, ih ht]

/-- Lookup distributes over an append when the key misses the front part. -/
theorem lbLookup_append_of_none (m l : List (String × LBEntry)) (k : String)
    (h : lbLookup k m = none) : lbLookup k (m ++ l) = lbLookup k l := by
  induction m with
  | nil => rfl
  | cons a t ih =>
    by_cases ha : a.1 = k
    · simp [lbLookup, ha] at h
    · simp only [lbLookup, ha, if_neg ha] at h ⊢
      exact ih h

/-- Lookup ignores an appended tail when the key hits the front part. -/
theorem lbLookup_append_of_some (m l : List (String × LBEntry)) (k : String)
    (e : LBEntry) (h : lbLookup k m = some e) : lbLookup k (m ++ l) = some e := by
  induction m with
  | nil => cases h
  | cons a t ih =>
    by_cases ha : a.1 = k
    · simp only [lbLookup, if_pos ha] at h ⊢
      exact h
    · simp only [lbLookup, if_neg ha] at h ⊢
      exact ih h

/-- Setting a key makes it present with the new value. -/
theorem lbLookup_lbSet_self (m : List (String × LBEntry)) (k : String) (v : LBEntry) :
    lbLookup k (lbSet m k v) = some v := by
  by_cases hin : m.any (fun p => p.1 = k) = true
  · rw [lbSet, if_pos hin, lbLookup_map_set]
    obtain ⟨e, he⟩ := lbLookup_isSome_of_any m k hin
    rw [he]
    rfl
  · rw [lbSet, if_neg hin,
      lbLookup_append_of_none m _ k (lbLookup_none_of_not_any m k hin)]
    simp [lbLookup]

/-- Setting one key leaves every other key's lookup unchanged. -/
theorem lbLookup_lbSet_ne (m : List (String × LBEntry)) (k k' : String) (v : LBEntry)
    (h : k' ≠ k) : lbLookup k' (lbSet m k v) = lbLookup k' m := by
  by_cases hin : m.any (fun p => p.1 = k) = true
  · rw [lbSet, if_pos hin, lbLookup_map_set_ne m k k' v h]
  · rw [lbSet, if_neg hin]
    cases hlk : lbLookup k' m with
    | none =>
      have hkk : ¬ k = k' := fun hk => h hk.symm
      rw [lbLookup_append_of_none m _ k' hlk]
      simp [lbLookup, hkk]
    | some e => exact lbLookup_append_of_some m _ k' e hlk

/-- Step equation: a result with non-positive total is skipped. -/
theorem lbStep_nonpos (rn : String) (gv : Option String)
    (acc : List (String × LBEntry) × Bool) (kr : K2 × Record)
    (htot : lbTotal kr.2 ≤ 0) : lbStep rn gv acc kr = acc := by
  unfold lbStep
  simp only [if_pos htot]

/-- Step equation: a positive-total result for a fresh key is inserted. -/
theorem lbStep_new (rn : String) (gv : Option String)
    (acc : List (String × LBEntry) × Bool) (kr : K2 × Record)
    (htot : ¬ lbTotal kr.2 ≤ 0)
    (hold : lbLookup (jStr kr.1.1 ++ "/" ++ jStr kr.1.2) acc.1 = none) :
    lbStep rn gv acc kr =
      (lbSet acc.1 (jStr kr.1.1 ++ "/" ++ jStr kr.1.2)
        (mkLBEntry kr.1 kr.2 (lbTotal kr.2) rn gv), true) := by
  unfold lbStep
  simp only [if_neg htot, hold]

/-- Step equation: a positive-total result strictly beating the stored best
replaces it. -/
theorem lbStep_improve (rn : String) (gv : Option String)
    (acc : List (String × LBEntry) × Bool) (kr : K2 × Record) (e0 : LBEntry)
    (htot : ¬ lbTotal kr.2 ≤ 0)
    (hold : lbLookup (jStr kr.1.1 ++ "/" ++ jStr kr.1.2) acc.1 = some e0)
    (hlt : lbTotal kr.2 < e0.best_total_ms) :
    lbStep rn gv acc kr =
      (lbSet acc.1 (jStr kr.1.1 ++ "/" ++ jStr kr.1.2)
        (mkLBEntry kr.1 kr.2 (lbTotal kr.2) rn gv), true) := by
  unfold lbStep
  simp only [if_neg htot, hold, if_pos hlt]

/-- Step equation: a positive-total result not beating the stored best is
skipped. -/
theorem lbStep_keep (rn : String) (gv : Option String)
    (acc : List (String × LBEntry) × Bool) (kr : K2 × Record) (e0 : LBEntry)
    (htot : ¬ lbTotal kr.2 ≤ 0)
    (hold : lbLookup (jStr kr.1.1 ++ "/" ++ jStr kr.1.2) acc.1 = some e0)
    (hge : ¬ lbTotal kr.2 < e0.best_total_ms) :
    lbStep rn gv acc kr = acc := by
  unfold lbStep
  simp only [if_neg htot, hold, if_neg hge]

/-- One leaderboard step never raises a stored best total: an existing
entry survives with a best no larger than before. -/
theorem lbStep_lookup_mono (rn : String) (gv : Option String)
    (acc : List (String × LBEntry) × Bool) (kr : K2 × Record) (k : String)
    (e : LBEntry) (h : lbLookup k acc.1 = some e) :
    ∃ e', lbLookup k (lbStep rn gv acc kr).1 = some e' ∧
      e'.best_total_ms ≤ e.best_total_ms := by
  unfold lbStep
  by_cases htot : lbTotal kr.2 ≤ 0
  · exact ⟨e, by simpa [htot] using h, le_refl _⟩
  · simp only [if_neg htot]
    by_cases hkey : (jStr kr.1.1 ++ "/" ++ jStr kr.1.2) = k
    · subst hkey
      rw [h]
      by_cases hlt : lbTotal kr.2 < e.best_total_ms
      · refine ⟨mkLBEntry kr.1 kr.2 (lbTotal kr.2) rn gv, ?_, ?_⟩
        · simp only [if_pos hlt]
          exact lbLookup_lbSet_self _ _ _
        · simpa [mkLBEntry] using le_of_lt hlt
      · exact ⟨e, by simp [if_neg hlt, h], le_refl _⟩
    · cases hold : lbLookup (jStr kr.1.1 ++ "/" ++ jStr kr.1.2) acc.1 with
      | none =>
        refine ⟨e, ?_, le_refl _⟩
        simp only [hold]
        rw [lbLookup_lbSet_ne _ _ _ _ (fun hk => hkey hk.symm)]
        exact h
      | some e0 =>
        by_cases hlt : lbTotal kr.2 < e0.best_total_ms
        · refine ⟨e, ?_, le_refl _⟩
          simp only [hold, if_pos hlt]
          rw [lbLookup_lbSet_ne _ _ _ _ (fun hk => hkey hk.symm)]
          exact h
        · exact ⟨e, by simp [hold, if_neg hlt, h], le_refl _⟩

/-- One leaderboard step only stores entries with a positive best total. -/
theorem lbStep_lookup_pos (rn : String) (gv : Option String)
    (acc : List (String × LBEntry) × Bool) (kr : K2 × Record)
    (h : ∀ k e, lbLookup k acc.1 = some e → 0 < e.best_total_ms) :
    ∀ k e, lbLookup k (lbStep rn gv acc kr).1 = some e → 0 < e.best_total_ms := by
  intro k e he
  unfold lbStep at he
  by_cases htot : lbTotal kr.2 ≤ 0
  · exact h k e (by simpa [htot] using he)
  · rw [if_neg htot] at he
    have hpos : 0 < lbTotal kr.2 := lt_of_not_ge (fun hge => htot hge)
    have hnew : lbLookup k
        (lbSet acc.1 (jStr kr.1.1 ++ "/" ++ jStr kr.1.2)
          (mkLBEntry kr.1 kr.2 (lbTotal kr.2) rn gv)) = some e →
        0 < e.best_total_ms := by
      intro hset
      by_cases hkey : (jStr kr.1.1 ++ "/" ++ jStr kr.1.2) = k
      · subst hkey
        rw [lbLookup_lbSet_self] at hset
        cases hset
        simpa [mkLBEntry] using hpos
      · rw [lbLookup_lbSet_ne _ _ _ _ (fun hk => hkey hk.symm)] at hset
        exact h k e hset
    have he' : lbLookup k
        (match lbLookup (jStr kr.1.1 ++ "/" ++ jStr kr.1.2) acc.1 with
          | none => (lbSet acc.1 (jStr kr.1.1 ++ "/" ++ jStr kr.1.2)
              (mkLBEntry kr.1 kr.2 (lbTotal kr.2) rn gv), true)
          | some e0 =>
            if lbTotal kr.2 < e0.best_total_ms then
              (lbSet acc.1 (jStr kr.1.1 ++ "/" ++ jStr kr.1.2)
                (mkLBEntry kr.1 kr.2 (lbTotal kr.2) rn gv), true)
            else acc).1 = some e := he
    split at he'
    · exact hnew he'
    · split at he'
      · exact hnew he'
      · exact h k e he'

/-- The full update fold never raises a stored best total. -/
theorem foldl_lbStep_mono (rn : String) (gv : Option String) :
    ∀ (results : List (K2 × Record)) (acc : List (String × LBEntry) × Bool)
      (k : String) (e : LBEntry), lbLookup k acc.1 = some e →
      ∃ e', lbLookup k (results.foldl (lbStep rn gv) acc).1 = some e' ∧
        e'.best_total_ms ≤ e.best_total_ms := by
  intro results
  induction results with
  | nil => exact fun acc k e h => ⟨e, h, le_refl _⟩
  | cons kr t ih =>
    intro acc k e h
    obtain ⟨e1, he1, hle1⟩ := lbStep_lookup_mono rn gv acc kr k e h
    obtain ⟨e2, he2, hle2⟩ := ih (lbStep rn gv acc kr) k e1 he1
    exact ⟨e2, he2, le_trans hle2 hle1⟩

/-- The full update fold stores only entries with a positive best total. -/
theorem foldl_lbStep_pos (rn : String) (gv : Option String) :
    ∀ (results : List (K2 × Record)) (acc : List (String × LBEntry) × Bool),
      (∀ k e, lbLookup k acc.1 = some e → 0 < e.best_total_ms) →
      ∀ k e, lbLookup k (results.foldl (lbStep rn gv) acc).1 = some e →
        0 < e.best_total_ms := by
  intro results
  induction results with
  | nil => exact fun acc h => h
  | cons kr t ih =>
    intro acc h
    exact ih (lbStep rn gv acc kr) (lbStep_lookup_pos rn gv acc kr h)

/-!  C10 — the positivity guard of the leaderboard. -/

/-- C10: a result whose write plus read total is not positive never creates
or modifies a leaderboard entry (even for a fresh key), and consequently
every entry of a leaderboard reachable from the empty store has a strictly
positive `best_total_ms`. -/
theorem c10_leaderboard_positive_totals :
    (∀ (entries : List (String × LBEntry)) (k : K2) (r : Record)
        (rn : String) (gv : Option String), lbTotal r ≤ 0 →
        update_leaderboard entries [(k, r)] rn gv = (entries, false)) ∧
    (∀ es, ReachableLB es → ∀ k e, lbLookup k es = some e →
        0 < e.best_total_ms) := by
  constructor
  · intro entries k r rn gv htot
    simp [update_leaderboard, lbStep, htot]
  · intro es hreach
    induction hreach with
    | empty => intro k e he; cases he
    | step es results rn gv _ ih =>
      exact foldl_lbStep_pos rn gv results (es, false) ih

/-- Witness for C10: a record with zero total leaves the empty store empty,
and the entry created by a genuine result has a positive best total. -/
theorem c10_witness :
    update_leaderboard [] [((JVal.s "d", JVal.s "m"), [])] "r0" none = ([], false) ∧
    0 < (mkLBEntry (JVal.s "d", JVal.s "m")
        [("write_time_ms", JVal.i 3), ("read_time_ms", JVal.i 4)]
        (lbTotal [("write_time_ms", JVal.i 3), ("read_time_ms", JVal.i 4)])
        "run1" none).best_total_ms := by
  constructor
  · exact c10_leaderboard_positive_totals.1 [] (JVal.s "d", JVal.s "m") [] "r0" none
      (by norm_num [lbTotal, numField, toQ, toNumO, getD, alookup])
  · refine c10_leaderboard_positive_totals.2
      (update_leaderboard []
        [((JVal.s "d", JVal.s "m"),
          [("write_time_ms", JVal.i 3), ("read_time_ms", JVal.i 4)])] "run1" none).1
      (ReachableLB.step _ _ _ _ ReachableLB.empty) "d/m" _ ?_
    simp [update_leaderboard, lbStep, lbTotal, numField, toQ, toNumO, getD,
      alookup, jStr, lbLookup, lbSet]
    norm_num [lbLookup]

/-!  C5 — leaderboard update condition and monotonicity. -/

/-- C5 counterexample: the claim says an entry is created iff the result's
total beats the stored best *or no entry exists yet*; but for the key
`d/m` no entry exists in the empty store and the update with a record whose
total is 0 still creates nothing (the code skips any result with
`total <= 0`). -/
theorem c5_counterexample :
    lbLookup "d/m" ([] : List (String × LBEntry)) = none ∧
    (update_leaderboard [] [((JVal.s "d", JVal.s "m"), [])] "r0" none).1 = [] := by
  refine ⟨rfl, ?_⟩
  simp [update_leaderboard, lbStep, lbTotal, numField, toQ, toNumO, getD, alookup]

/-- C5 amended: an entry is created or replaced iff the supplied result's
`write_time_ms + read_time_ms` is strictly positive and is strictly less
than the stored `best_total_ms` (or no entry exists yet); across any
sequence of updates, `best_total_ms` for an existing key never increases. -/
theorem c5_leaderboard_update_characterization :
    (∀ (entries : List (String × LBEntry)) (results : List (K2 × Record))
        (rn : String) (gv : Option String) (k : String) (e : LBEntry),
        lbLookup k entries = some e →
        ∃ e', lbLookup k (update_leaderboard entries results rn gv).1 = some e' ∧
          e'.best_total_ms ≤ e.best_total_ms) ∧
    (∀ (entries : List (String × LBEntry)) (k : K2) (r : Record)
        (rn : String) (gv : Option String),
        lbLookup (jStr k.1 ++ "/" ++ jStr k.2)
            (update_leaderboard entries [(k, r)] rn gv).1 ≠
          lbLookup (jStr k.1 ++ "/" ++ jStr k.2) entries ↔
        (0 < lbTotal r ∧
          (lbLookup (jStr k.1 ++ "/" ++ jStr k.2) entries = none ∨
           ∃ e, lbLookup (jStr k.1 ++ "/" ++ jStr k.2) entries = some e ∧
             lbTotal r < e.best_total_ms))) := by
  constructor
  · intro entries results rn gv k e h
    exact foldl_lbStep_mono rn gv results (entries, false) k e h
  · intro entries k r rn gv
    have hul : update_leaderboard entries [(k, r)] rn gv =
        lbStep rn gv (entries, false) (k, r) := rfl
    rw [hul]
    by_cases htot : lbTotal r ≤ 0
    · rw [lbStep_nonpos rn gv (entries, false) (k, r) htot]
      refine iff_of_false (fun hne => hne rfl) ?_
      rintro ⟨hpos, _⟩
      exact absurd htot (not_le_of_lt hpos)
    · have hpos : 0 < lbTotal r := lt_of_not_ge htot
      cases hold : lbLookup (jStr k.1 ++ "/" ++ jStr k.2) entries with
      | none =>
        rw [lbStep_new rn gv (entries, false) (k, r) htot hold]
        refine iff_of_true ?_ ⟨hpos, Or.inl rfl⟩
        rw [lbLookup_lbSet_self]
        exact fun hc => Option.noConfusion hc
      | some e0 =>
        by_cases hlt : lbTotal r < e0.best_total_ms
        · rw [lbStep_improve rn gv (entries, false) (k, r) e0 htot hold hlt]
          refine iff_of_true ?_ ⟨hpos, Or.inr ⟨e0, rfl, hlt⟩⟩
          rw [lbLookup_lbSet_self]
          intro hc
          have hbest := congrArg LBEntry.best_total_ms (Option.some.inj hc)
          simp only [mkLBEntry] at hbest
          rw [hbest] at hlt
          exact lt_irrefl _ hlt
        · rw [lbStep_keep rn gv (entries, false) (k, r) e0 htot hold hlt]
          refine iff_of_false (fun hne => hne hold) ?_
          rintro ⟨_, hcond | ⟨e1, he1, hlt1⟩⟩
          · exact Option.noConfusion hcond
          · cases Option.some.inj he1
            exact absurd hlt1 hlt

/-- Witness for C5: an update whose total 90 beats the stored best 100
changes the stored entry for the key. -/
theorem c5_witness :
    lbLookup (jStr (JVal.s "d") ++ "/" ++ jStr (JVal.s "m"))
        (update_leaderboard
          [("d/m", ⟨JVal.s "d", JVal.s "m", 100, 60, 40, JVal.i 0, JVal.i 0, "old", "unknown"⟩)]
          [((JVal.s "d", JVal.s "m"),
            [("write_time_ms", JVal.i 50), ("read_time_ms", JVal.i 40)])] "new" none).1 ≠
      lbLookup (jStr (JVal.s "d") ++ "/" ++ jStr (JVal.s "m"))
        [("d/m", ⟨JVal.s "d", JVal.s "m", 100, 60, 40, JVal.i 0, JVal.i 0, "old", "unknown"⟩)] := by
  refine (c5_leaderboard_update_characterization.2
    [("d/m", ⟨JVal.s "d", JVal.s "m", 100, 60, 40, JVal.i 0, JVal.i 0, "old", "unknown"⟩)]
    (JVal.s "d", JVal.s "m")
    [("write_time_ms", JVal.i 50), ("read_time_ms", JVal.i 40)]
    "new" none).mpr ⟨?_, Or.inr
    ⟨⟨JVal.s "d", JVal.s "m", 100, 60, 40, JVal.i 0, JVal.i 0, "old", "unknown"⟩, ?_, ?_⟩⟩
  · simp [lbTotal, numField, toQ, toNumO, getD, alookup]
    norm_num
  · simp [lbLookup, jStr]
  · simp [lbTotal, numField, toQ, toNumO, getD, alookup]
    norm_num

/-!  C4 — strict threshold classification. -/

/-- Membership in the four-flag list built by `compare_results`. -/
theorem mem_flag_list (w r t s : Prop) [Decidable w] [Decidable r]
    [Decidable t] [Decidable s] :
    ("write" ∈ ((if w then ["write"] else []) ++ (if r then ["read"] else []) ++
        (if t then ["total"] else []) ++ (if s then ["size"] else []) : List String) ↔ w) ∧
    ("read" ∈ ((if w then ["write"] else []) ++ (if r then ["read"] else []) ++
        (if t then ["total"] else []) ++ (if s then ["size"] else []) : List String) ↔ r) ∧
    ("total" ∈ ((if w then ["write"] else []) ++ (if r then ["read"] else []) ++
        (if t then ["total"] else []) ++ (if s then ["size"] else []) : List String) ↔ t) ∧
    ("size" ∈ ((if w then ["write"] else []) ++ (if r then ["read"] else []) ++
        (if t then ["total"] else []) ++ (if s then ["size"] else []) : List String) ↔ s) := by
  by_cases hw : w <;> by_cases hr : r <;> by_cases ht : t <;> by_cases hs : s <;>
    simp [hw, hr, ht, hs]

/-- Per-row strict-threshold property of `compareOne`. -/
theorem compareOne_strict_threshold (k : K2) (base cand : Record) (θ : ℚ) :
    (("write" ∈ (compareOne k base cand θ).regression_fields) ↔
        θ < (compareOne k base cand θ).write_delta_pct) ∧
    (("read" ∈ (compareOne k base cand θ).regression_fields) ↔
        θ < (compareOne k base cand θ).read_delta_pct) ∧
    (("total" ∈ (compareOne k base cand θ).regression_fields) ↔
        θ < (compareOne k base cand θ).total_delta_pct) ∧
    (("size" ∈ (compareOne k base cand θ).regression_fields) ↔
        θ < (compareOne k base cand θ).size_delta_pct) ∧
    ((compareOne k base cand θ).regression = true ↔
        (compareOne k base cand θ).regression_fields ≠ []) := by
  have hm := mem_flag_list
    (delta_pct (numField base "write_time_ms") (numField cand "write_time_ms") > θ)
    (delta_pct (numField base "read_time_ms") (numField cand "read_time_ms") > θ)
    (delta_pct (numField base "write_time_ms" + numField base "read_time_ms")
      (numField cand "write_time_ms" + numField cand "read_time_ms") > θ)
    (delta_pct (numField base "file_size") (numField cand "file_size") > θ)
  refine ⟨?_, ?_, ?_, ?_, ?_⟩
  · simpa [compareOne, gt_iff_lt] using hm.1
  · simpa [compareOne, gt_iff_lt] using hm.2.1
  · simpa [compareOne, gt_iff_lt] using hm.2.2.1
  · simpa [compareOne, gt_iff_lt] using hm.2.2.2
  · have h1 : (compareOne k base cand θ).regression =
        decide (0 < (compareOne k base cand θ).regression_fields.length) := rfl
    rw [h1, decide_eq_true_eq, List.length_pos]

/-- C4: every row the comparator produces flags a metric among write, read,
total and size as a regression iff the metric's percentage delta is
strictly greater than the threshold, and the row's overall flag is set iff
some metric is flagged. -/
theorem c4_regression_strict_threshold (baseline candidate : List (K2 × Record))
    (θ : ℚ) (row : CompRow) (h : row ∈ compare_results baseline candidate θ) :
    (("write" ∈ row.regression_fields) ↔ θ < row.write_delta_pct) ∧
    (("read" ∈ row.regression_fields) ↔ θ < row.read_delta_pct) ∧
    (("total" ∈ row.regression_fields) ↔ θ < row.total_delta_pct) ∧
    (("size" ∈ row.regression_fields) ↔ θ < row.size_delta_pct) ∧
    (row.regression = true ↔ row.regression_fields ≠ []) := by
  unfold compare_results at h
  rw [List.mem_filterMap] at h
  obtain ⟨k, _, hfk⟩ := h
  cases hb : lookupK2 baseline k with
  | none => simp [hb] at hfk
  | some base =>
    cases hc : lookupK2 candidate k with
    | none => simp [hb, hc] at hfk
    | some cand =>
      simp only [hb, hc] at hfk
      split at hfk
      · cases hfk
      · cases Option.some.inj hfk
        exact compareOne_strict_threshold k base cand θ

/-- Witness for C4 at threshold 5: a write delta of exactly +5.0 percent is
not flagged, a write delta of +5.01 percent is. -/
theorem c4_witness :
    ("write" ∈ (compareOne (JVal.s "d", JVal.s "m") [("write_time_ms", JVal.f 100)]
        [("write_time_ms", JVal.f (10501 / 100))] 5).regression_fields) ∧
    ("write" ∉ (compareOne (JVal.s "d", JVal.s "m") [("write_time_ms", JVal.f 100)]
        [("write_time_ms", JVal.f 105)] 5).regression_fields) := by
  have hmem1 : compareOne (JVal.s "d", JVal.s "m") [("write_time_ms", JVal.f 100)]
      [("write_time_ms", JVal.f (10501 / 100))] 5 ∈
      compare_results [((JVal.s "d", JVal.s "m"), [("write_time_ms", JVal.f 100)])]
        [((JVal.s "d", JVal.s "m"), [("write_time_ms", JVal.f (10501 / 100))])] 5 := by
    simp [compare_results, distinctK2, lookupK2, pyEqK2, pyEqJ,
      List.insertionSort, List.orderedInsert, List.filterMap_cons, List.find?]
  have hmem2 : compareOne (JVal.s "d", JVal.s "m") [("write_time_ms", JVal.f 100)]
      [("write_time_ms", JVal.f 105)] 5 ∈
      compare_results [((JVal.s "d", JVal.s "m"), [("write_time_ms", JVal.f 100)])]
        [((JVal.s "d", JVal.s "m"), [("write_time_ms", JVal.f 105)])] 5 := by
    simp [compare_results, distinctK2, lookupK2, pyEqK2, pyEqJ,
      List.insertionSort, List.orderedInsert, List.filterMap_cons, List.find?]
  constructor
  · refine (c4_regression_strict_threshold _ _ 5 _ hmem1).1.mpr ?_
    simp [compareOne, numField, getD, alookup, toQ, toNumO]
    norm_num [delta_pct]
  · intro hin
    have h5 := (c4_regression_strict_threshold _ _ 5 _ hmem2).1.mp hin
    rw [show (compareOne (JVal.s "d", JVal.s "m") [("write_time_ms", JVal.f 100)]
        [("write_time_ms", JVal.f 105)] 5).write_delta_pct =
        delta_pct (numField [("write_time_ms", JVal.f 100)] "write_time_ms")
          (numField [("write_time_ms", JVal.f 105)] "write_time_ms") from rfl] at h5
    norm_num [delta_pct, numField, getD, alookup, toQ, toNumO] at h5

/-!  C1 — exit code classification of the comparison entry point. -/

/-- C1: once both result maps are non-empty, the comparison path of `main`
exits 2 iff a row-count mismatch was found and the override flag is off (in
which case no comparison rows are produced), exits 1 iff the comparison ran
and some matched workload regressed, and exits 0 iff the comparison ran and
no matched workload regressed. -/
theorem c1_exit_code_classification (baseline candidate : List (K2 × Record))
    (allow : Bool) (θ : ℚ) (hb : baseline ≠ []) (hc : candidate ≠ []) :
    ((main_compare baseline candidate allow θ).1 = 2 ↔
      (find_row_count_mismatches baseline candidate ≠ [] ∧ allow = false)) ∧
    ((main_compare baseline candidate allow θ).1 = 2 →
      (main_compare baseline candidate allow θ).2 = []) ∧
    ((main_compare baseline candidate allow θ).1 = 1 ↔
      (¬ (find_row_count_mismatches baseline candidate ≠ [] ∧ allow = false) ∧
        ∃ c ∈ compare_results baseline candidate θ, c.regression = true)) ∧
    ((main_compare baseline candidate allow θ).1 = 0 ↔
      (¬ (find_row_count_mismatches baseline candidate ≠ [] ∧ allow = false) ∧
        ∀ c ∈ compare_results baseline candidate θ, c.regression = false)) := by
  unfold main_compare
  rw [if_neg hb, if_neg hc]
  by_cases hm : find_row_count_mismatches baseline candidate ≠ [] ∧ allow = false
  · rw [if_pos hm]
    refine ⟨iff_of_true rfl hm, fun _ => rfl, ?_, ?_⟩
    · refine iff_of_false (by decide) ?_
      rintro ⟨hnm, _⟩
      exact hnm hm
    · refine iff_of_false (by decide) ?_
      rintro ⟨hnm, _⟩
      exact hnm hm
  · rw [if_neg hm]
    by_cases hr : (compare_results baseline candidate θ).any (fun c => c.regression) = true
    · rw [if_pos hr]
      obtain ⟨c0, hc0, hcr0⟩ := List.any_eq_true.mp hr
      refine ⟨iff_of_false (by simp) (fun hmm => hm hmm), ?_, ?_, ?_⟩
      · intro h2
        exact absurd h2 (by simp)
      · exact iff_of_true rfl ⟨hm, c0, hc0, hcr0⟩
      · refine iff_of_false (by simp) ?_
        rintro ⟨_, hall⟩
        rw [hall c0 hc0] at hcr0
        cases hcr0
    · rw [if_neg hr]
      have hr' : (compare_results baseline candidate θ).any (fun c => c.regression) = false := by
        cases hany : (compare_results baseline candidate θ).any (fun c => c.regression) with
        | false => rfl
        | true => exact absurd hany hr
      have hall : ∀ c ∈ compare_results baseline candidate θ, c.regression = false := by
        intro c hcmem
        have hnc := List.any_eq_false.mp hr' c hcmem
        cases hcr : c.regression with
        | false => rfl
        | true => exact absurd hcr hnc
      refine ⟨iff_of_false (by simp) (fun hmm => hm hmm), ?_, ?_, ?_⟩
      · intro h0
        exact absurd h0 (by simp)
      · refine iff_of_false (by simp) ?_
        rintro ⟨_, c1, hc1, hcr1⟩
        rw [hall c1 hc1] at hcr1
        cases hcr1
      · exact iff_of_true rfl ⟨hm, hall⟩

/-- Witness for C1: a concrete clean comparison with one matched workload
and no regression exits 0 with one comparison row. -/
theorem c1_witness :
    (main_compare [((JVal.s "d", JVal.s "m"), [("write_time_ms", JVal.f 100)])]
        [((JVal.s "d", JVal.s "m"), [("write_time_ms", JVal.f 100)])] false 5).1 = 0 := by
  have hB : ([((JVal.s "d", JVal.s "m"), [("write_time_ms", JVal.f 100)])] :
      List (K2 × Record)) ≠ [] := by simp
  have h := c1_exit_code_classification
    [((JVal.s "d", JVal.s "m"), [("write_time_ms", JVal.f 100)])]
    [((JVal.s "d", JVal.s "m"), [("write_time_ms", JVal.f 100)])] false 5 hB hB
  refine h.2.2.2.mpr ⟨?_, ?_⟩
  · rintro ⟨hmm, _⟩
    refine hmm ?_
    simp [find_row_count_mismatches, lookupK2, pyEqK2, pyEqJ, alookup,
      List.insertionSort, List.orderedInsert, List.filterMap_cons, List.find?]
  · intro c hcmem
    have heq : compare_results
        [((JVal.s "d", JVal.s "m"), [("write_time_ms", JVal.f 100)])]
        [((JVal.s "d", JVal.s "m"), [("write_time_ms", JVal.f 100)])] 5 =
        [compareOne (JVal.s "d", JVal.s "m") [("write_time_ms", JVal.f 100)]
          [("write_time_ms", JVal.f 100)] 5] := by
      simp [compare_results, distinctK2, lookupK2, pyEqK2, pyEqJ,
        List.insertionSort, List.orderedInsert, List.filterMap_cons, List.find?]
    rw [heq] at hcmem
    rw [List.mem_singleton.mp hcmem]
    simp [compareOne, numField, getD, alookup, toQ, toNumO]
    norm_num [delta_pct]

/-!  C6 — workload identity. -/

/-- Python-equal values stay Python-equal after tracking-suffix stripping. -/
theorem pyEqJ_modeBaseJ : ∀ {a c : JVal}, pyEqJ a c = true →
    pyEqJ (modeBaseJ a) (modeBaseJ c) = true := by
  intro a c h
  cases a <;> cases c <;> simp_all [pyEqJ, modeBaseJ, toNumO]

/-- C6 counterexample: the claim says grouping and pairing treat two
records as the same workload iff their suffix-stripped WorkloadKeys are
equal.  The records with modes `BCSV Flexible [trk=off]` and
`BCSV Flexible [trk=on]` have equal WorkloadKeys (in the spec's sense) yet
the aggregator groups them separately (its key keeps the raw mode), and the
records differing only in `scenario_id` have different WorkloadKeys yet the
comparison loader folds them into one `(dataset, mode)` slot. -/
theorem c6_counterexample :
    keyEq5
        (specWorkloadKey [("dataset", JVal.s "iot"), ("mode", JVal.s "BCSV Flexible [trk=off]")])
        (specWorkloadKey [("dataset", JVal.s "iot"), ("mode", JVal.s "BCSV Flexible [trk=on]")]) = true ∧
    keyEq5
        (macro_row_key [("dataset", JVal.s "iot"), ("mode", JVal.s "BCSV Flexible [trk=off]")])
        (macro_row_key [("dataset", JVal.s "iot"), ("mode", JVal.s "BCSV Flexible [trk=on]")]) = false ∧
    groupOf [⟨[], [[("dataset", JVal.s "iot"), ("mode", JVal.s "BCSV Flexible [trk=off]")],
        [("dataset", JVal.s "iot"), ("mode", JVal.s "BCSV Flexible [trk=on]")]]⟩]
        (macro_row_key [("dataset", JVal.s "iot"), ("mode", JVal.s "BCSV Flexible [trk=off]")]) =
      [[("dataset", JVal.s "iot"), ("mode", JVal.s "BCSV Flexible [trk=off]")]] ∧
    keyEq5
        (specWorkloadKey [("dataset", JVal.s "x"), ("mode", JVal.s "CSV"), ("scenario_id", JVal.s "s1")])
        (specWorkloadKey [("dataset", JVal.s "x"), ("mode", JVal.s "CSV"), ("scenario_id", JVal.s "s2")]) = false ∧
    load_macro_results
        [[("dataset", JVal.s "x"), ("mode", JVal.s "CSV"), ("scenario_id", JVal.s "s1")],
         [("dataset", JVal.s "x"), ("mode", JVal.s "CSV"), ("scenario_id", JVal.s "s2")]] =
      [((JVal.s "x", JVal.s "CSV"),
        [("dataset", JVal.s "x"), ("mode", JVal.s "CSV"), ("scenario_id", JVal.s "s2")])] := by
  decide

/-- C6 amended: the aggregator's grouping key is the raw-mode tuple
`(dataset, mode, scenario_id, access_path, selected_columns)` — strictly
finer than the spec's WorkloadKey: records with equal grouping keys have
equal suffix-stripped WorkloadKeys and equal comparison pairing keys
`(dataset, mode)`, but not conversely (records differing only in tracking
suffix are grouped apart, and pairing ignores scenario, access path and
column selection). -/
theorem c6_grouping_refines_workload_key (r1 r2 : Record)
    (h : keyEq5 (macro_row_key r1) (macro_row_key r2) = true) :
    keyEq5 (specWorkloadKey r1) (specWorkloadKey r2) = true ∧
    pyEqK2 (loadKey r1) (loadKey r2) = true := by
  simp only [keyEq5, macro_row_key, Bool.and_eq_true] at h
  obtain ⟨⟨⟨⟨hds, hmode⟩, hsc⟩, hap⟩, hsel⟩ := h
  constructor
  · simp only [keyEq5, specWorkloadKey, Bool.and_eq_true]
    exact ⟨⟨⟨⟨hds, pyEqJ_modeBaseJ hmode⟩, hsc⟩, hap⟩, hsel⟩
  · simp only [pyEqK2, loadKey, Bool.and_eq_true]
    exact ⟨hds, hmode⟩

/-- Witness for C6 at a concrete record. -/
theorem c6_witness :
    keyEq5 (specWorkloadKey [("dataset", JVal.s "iot"), ("mode", JVal.s "CSV")])
        (specWorkloadKey [("dataset", JVal.s "iot"), ("mode", JVal.s "CSV")]) = true ∧
    pyEqK2 (loadKey [("dataset", JVal.s "iot"), ("mode", JVal.s "CSV")])
        (loadKey [("dataset", JVal.s "iot"), ("mode", JVal.s "CSV")]) = true :=
  c6_grouping_refines_workload_key
    [("dataset", JVal.s "iot"), ("mode", JVal.s "CSV")]
    [("dataset", JVal.s "iot"), ("mode", JVal.s "CSV")] (by decide)

/-!  C8 — baseline discovery ranking. -/

/-- C8 counterexample: the claim ranks third by overlap of run-types with
the current run, micro included; the code's third criterion counts only the
macro overlap.  With both macro sizes and the micro suite required, the
candidate holding both macro results but no micro (mtime 10) and the newer
candidate holding one macro result plus micro (mtime 50) each miss one
required run-type; the code returns the older both-macro candidate (macro
overlap 2 beats 1), although under the claim's run-type overlap the two tie
at 2 and the newer candidate ranks strictly higher. -/
theorem c8_counterexample :
    latest_clean_run
        [⟨1, "abc", true, true, true, false, false, 10, false⟩,
         ⟨2, "def", true, true, false, false, true, 50, false⟩]
        ["MACRO-SMALL", "MACRO-LARGE"] true =
      some ⟨1, "abc", true, true, true, false, false, 10, false⟩ ∧
    usableCandidate (⟨2, "def", true, true, false, false, true, 50, false⟩ : RunDir) = true ∧
    specScoreKey ["MACRO-SMALL", "MACRO-LARGE"] true
        ⟨1, "abc", true, true, true, false, false, 10, false⟩ <
      specScoreKey ["MACRO-SMALL", "MACRO-LARGE"] true
        ⟨2, "def", true, true, false, false, true, 50, false⟩ := by
  refine ⟨?_, by decide, by decide⟩
  decide

/-- C8 amended: baseline discovery returns nothing iff no directory passes
the usability filter (in particular whenever no candidate has any usable
result data), and otherwise returns a filtered candidate that is maximal in
the code's lexicographic score order: exact coverage match first, then
fewest missing required run-types, then greatest overlap of required
*macro* run-types with the current run — the micro suite is counted by the
exact-match and missing criteria but not by the overlap criterion — then
most recent modification time. -/
theorem c8_latest_clean_run_ranking (dirs : List RunDir) (required : List String)
    (require_micro : Bool) :
    (latest_clean_run dirs required require_micro = none ↔
      dirs.filter usableCandidate = []) ∧
    (∀ d, latest_clean_run dirs required require_micro = some d →
      d ∈ dirs ∧ usableCandidate d = true ∧
      ∀ c ∈ dirs, usableCandidate c = true →
        scoreKey required require_micro c ≤ scoreKey required require_micro d) := by
  have hperm := List.perm_insertionSort
    (fun a c => scoreKey required require_micro c ≤ scoreKey required require_micro a)
    (dirs.filter usableCandidate)
  have hsorted := @List.sorted_insertionSort RunDir
    (fun a c => scoreKey required require_micro c ≤ scoreKey required require_micro a)
    (fun _ _ => inferInstance)
    ⟨fun a c => le_total (scoreKey required require_micro c)
      (scoreKey required require_micro a)⟩
    ⟨fun a c e hac hce => le_trans hce hac⟩
    (dirs.filter usableCandidate)
  constructor
  · constructor
    · intro hnone
      cases hs : List.insertionSort
          (fun a c => scoreKey required require_micro c ≤ scoreKey required require_micro a)
          (dirs.filter usableCandidate) with
      | nil =>
        rw [hs] at hperm
        exact hperm.symm.eq_nil
      | cons d0 rest =>
        have hres : latest_clean_run dirs required require_micro = some d0 := by
          simp only [latest_clean_run, hs]
        rw [hres] at hnone
        cases hnone
    · intro hfil
      have hs : List.insertionSort
          (fun a c => scoreKey required require_micro c ≤ scoreKey required require_micro a)
          (dirs.filter usableCandidate) = [] := by
        rw [hfil]
        rfl
      simp only [latest_clean_run, hs]
  · intro d hd
    cases hs : List.insertionSort
        (fun a c => scoreKey required require_micro c ≤ scoreKey required require_micro a)
        (dirs.filter usableCandidate) with
    | nil =>
      have hres : latest_clean_run dirs required require_micro = none := by
        simp only [latest_clean_run, hs]
      rw [hres] at hd
      cases hd
    | cons d0 rest =>
      have hres : latest_clean_run dirs required require_micro = some d0 := by
        simp only [latest_clean_run, hs]
      rw [hres] at hd
      cases Option.some.inj hd
      rw [hs] at hperm hsorted
      have hdmem : d ∈ dirs.filter usableCandidate :=
        hperm.mem_iff.1 (List.mem_cons_self d rest)
      refine ⟨(List.mem_filter.1 hdmem).1, (List.mem_filter.1 hdmem).2, ?_⟩
      intro c hcmem hcu
      have hcfil : c ∈ dirs.filter usableCandidate :=
        List.mem_filter.2 ⟨hcmem, hcu⟩
      rcases List.mem_cons.1 (hperm.mem_iff.2 hcfil) with rfl | hcr
      · exact le_refl _
      · exact List.rel_of_sorted_cons hsorted c hcr

/-- Witness for C8: between an exact-coverage candidate and a partial one,
discovery returns the exact one and its score dominates. -/
theorem c8_witness :
    scoreKey ["MACRO-SMALL", "MACRO-LARGE"] true
        ⟨1, "abc", true, true, false, false, false, 50, false⟩ ≤
      scoreKey ["MACRO-SMALL", "MACRO-LARGE"] true
        ⟨2, "def", true, true, true, false, true, 10, false⟩ := by
  refine ((c8_latest_clean_run_ranking
    [⟨1, "abc", true, true, false, false, false, 50, false⟩,
     ⟨2, "def", true, true, true, false, true, 10, false⟩]
    ["MACRO-SMALL", "MACRO-LARGE"] true).2
    ⟨2, "def", true, true, true, false, true, 10, false⟩ ?_).2.2
    ⟨1, "abc", true, true, false, false, false, 50, false⟩ (by decide) (by decide)
  decide

/-!  C2 — skipped records. -/

/-- A numeric value is not a boolean. -/
theorem isBoolJ_eq_false_of_isNumJ {v : JVal} (h : isNumJ v = true) :
    isBoolJ v = false := by
  cases v <;> simp_all [isNumJ, isBoolJ]

/-- Every row surviving the runner's stripping step has a status other than
`"skipped"`. -/
theorem strip_skipped_keeps_only_ok (p : Payload) :
    ∀ r ∈ (strip_skipped p).results, keepRow r = true := by
  intro r hr
  simp only [strip_skipped] at hr
  split at hr
  · exact List.of_mem_filter hr
  · next hcnt =>
    have hle := List.length_filter_le keepRow p.results
    have hlen : (p.results.filter keepRow).length = p.results.length := by omega
    exact all_of_length_filter keepRow p.results hlen r hr

/-- C2 counterexample: the claim says a skipped record contributes to no
aggregation group and no comparison row; but the aggregator emits a group
built from a skipped record unchanged, and the comparator produces a
comparison row from skipped records present on both sides — neither
function filters by status (stripping happens earlier, in the runner). -/
theorem c2_counterexample :
    (aggregate_macro_payloads
        [⟨[], [[("dataset", JVal.s "d"), ("status", JVal.s "skipped"),
          ("write_time_ms", JVal.i 10)]]⟩] "MACRO-SMALL").map AggOut.results =
      some [[("dataset", JVal.s "d"), ("status", JVal.s "skipped"),
        ("write_time_ms", JVal.i 10)]] ∧
    (compare_results
        [((JVal.s "d", JVal.s "m"),
          [("status", JVal.s "skipped"), ("write_time_ms", JVal.i 10)])]
        [((JVal.s "d", JVal.s "m"),
          [("status", JVal.s "skipped"), ("write_time_ms", JVal.i 10)])] 5).length = 1 := by
  constructor
  · simp [aggregate_macro_payloads, distinctKeys, allRows, groupOf,
      aggregate_dicts, reduce_group_value, median_value, medianQ, sortQ,
      List.insertionSort, List.orderedInsert, macro_row_key, keyEq5, pyEqJ,
      getD, alookup, toQ, toNumO, isNumJ, isBoolJ, isIntJ, List.filterMap_cons,
      k5LtB, dictSet]
    norm_num [pyRound]
  · have heq : compare_results
        [((JVal.s "d", JVal.s "m"),
          [("status", JVal.s "skipped"), ("write_time_ms", JVal.i 10)])]
        [((JVal.s "d", JVal.s "m"),
          [("status", JVal.s "skipped"), ("write_time_ms", JVal.i 10)])] 5 =
        [compareOne (JVal.s "d", JVal.s "m")
          [("status", JVal.s "skipped"), ("write_time_ms", JVal.i 10)]
          [("status", JVal.s "skipped"), ("write_time_ms", JVal.i 10)] 5] := by
      simp [compare_results, distinctK2, lookupK2, pyEqK2, pyEqJ,
        List.insertionSort, List.orderedInsert, List.filterMap_cons, List.find?]
    rw [heq]
    rfl

/-- C2 amended: the exclusion of skipped records happens in the sequential
runner, which strips every row with `status = "skipped"` from the persisted
payload; consequently every row of a stripped payload, and every member of
every aggregation group formed from stripped payloads, has a status other
than `"skipped"`.  The aggregator and the comparator themselves perform no
status filtering (the counterexample), so the invariant holds for pipeline
data but not for arbitrary inputs to those two functions. -/
theorem c2_skipped_excluded_by_runner_strip :
    (∀ p : Payload, ∀ r ∈ (strip_skipped p).results, keepRow r = true) ∧
    (∀ (payloads : List Payload) (k : K5) (r : Record),
      r ∈ groupOf (payloads.map strip_skipped) k → keepRow r = true) := by
  refine ⟨strip_skipped_keeps_only_ok, ?_⟩
  intro payloads k r hr
  have hr1 : r ∈ allRows (payloads.map strip_skipped) :=
    (List.mem_filter.1 hr).1
  unfold allRows at hr1
  rw [List.mem_flatten] at hr1
  obtain ⟨l, hl, hrl⟩ := hr1
  rw [List.mem_map] at hl
  obtain ⟨p', hp', rfl⟩ := hl
  rw [List.mem_map] at hp'
  obtain ⟨p, _, rfl⟩ := hp'
  exact strip_skipped_keeps_only_ok p r hrl

/-- Witness for C2 at a concrete stripped payload and group. -/
theorem c2_witness :
    keepRow [("dataset", JVal.s "d")] = true :=
  c2_skipped_excluded_by_runner_strip.2
    [⟨[], [[("dataset", JVal.s "d")]]⟩]
    (macro_row_key [("dataset", JVal.s "d")])
    [("dataset", JVal.s "d")] (by decide)

/-!  C7 — order independence of aggregation. -/

/-- The reduced value of a field present in all group members, with
all-numeric or all-boolean values, is a function of the multiset of
members. -/
theorem aggregate_dicts_lookup_perm (ss ss' : List Record) (h : ss.Perm ss')
    (fkey : String)
    (hall : (ss.filterMap (alookup fkey)).length = ss.length)
    (hkind : (ss.filterMap (alookup fkey)).all isNumJ = true ∨
      (ss.filterMap (alookup fkey)).all isBoolJ = true) :
    alookup fkey (aggregate_dicts ss) = alookup fkey (aggregate_dicts ss') := by
  cases ss with
  | nil =>
    rw [h.symm.eq_nil]
  | cons s0 rest =>
    cases ss' with
    | nil => cases h.eq_nil
    | cons s0' rest' =>
      have hv : (List.filterMap (alookup fkey) (s0 :: rest)).Perm
          (List.filterMap (alookup fkey) (s0' :: rest')) := h.filterMap _
      have hall' : (List.filterMap (alookup fkey) (s0' :: rest')).length =
          (s0' :: rest').length := by
        rw [← hv.length_eq, hall, h.length_eq]
      have h0 : (alookup fkey s0).isSome = true :=
        isSome_of_length_filterMap _ _ hall s0 (List.mem_cons_self s0 rest)
      have h0' : (alookup fkey s0').isSome = true :=
        isSome_of_length_filterMap _ _ hall' s0' (List.mem_cons_self s0' rest')
      obtain ⟨v0, hv0⟩ := Option.isSome_iff_exists.1 h0
      obtain ⟨v0', hv0'⟩ := Option.isSome_iff_exists.1 h0'
      have hlhs : alookup fkey (aggregate_dicts (s0 :: rest)) =
          some (reduce_group_value (s0 :: rest) fkey v0) := by
        show alookup fkey (s0.map
          (fun p => (p.1, reduce_group_value (s0 :: rest) p.1 p.2))) = _
        rw [alookup_map_keyed, hv0]
        rfl
      have hrhs : alookup fkey (aggregate_dicts (s0' :: rest')) =
          some (reduce_group_value (s0' :: rest') fkey v0') := by
        show alookup fkey (s0'.map
          (fun p => (p.1, reduce_group_value (s0' :: rest') p.1 p.2))) = _
        rw [alookup_map_keyed, hv0']
        rfl
      rw [hlhs, hrhs]
      have hred : reduce_group_value (s0 :: rest) fkey v0 =
          reduce_group_value (s0' :: rest') fkey v0' := by
        unfold reduce_group_value
        rw [if_pos hall, if_pos hall']
        cases hkind with
        | inr hbool =>
          have hbool' : (List.filterMap (alookup fkey) (s0' :: rest')).all isBoolJ = true := by
            rw [← all_perm hv isBoolJ]
            exact hbool
          rw [if_pos hbool, if_pos hbool', all_perm hv boolVal]
        | inl hnum =>
          have hnum' : (List.filterMap (alookup fkey) (s0' :: rest')).all isNumJ = true := by
            rw [← all_perm hv isNumJ]
            exact hnum
          have hne : List.filterMap (alookup fkey) (s0 :: rest) ≠ [] := by
            intro hnil
            rw [hnil] at hall
            simp at hall
          have hnotbool : ¬ (List.filterMap (alookup fkey) (s0 :: rest)).all isBoolJ = true := by
            cases hvals : List.filterMap (alookup fkey) (s0 :: rest) with
            | nil => exact absurd hvals hne
            | cons v vs =>
              rw [hvals] at hnum
              intro hball
              have hvnum : isNumJ v = true := by
                have := List.all_eq_true.1 hnum v (List.mem_cons_self v vs)
                exact this
              have hvbool := List.all_eq_true.1 hball v (List.mem_cons_self v vs)
              rw [isBoolJ_eq_false_of_isNumJ hvnum] at hvbool
              cases hvbool
          have hnotbool' : ¬ (List.filterMap (alookup fkey) (s0' :: rest')).all isBoolJ = true := by
            rw [← all_perm hv isBoolJ]
            exact hnotbool
          rw [if_neg hnotbool, if_neg hnotbool', if_pos hnum, if_pos hnum',
            median_value_perm hv]
      rw [hred]

/-- C7 counterexample: the claim says aggregating a permutation of the
repetition list yields identical output; but the output dict is a copy of
the *first* payload, so two repetitions differing in a metadata field give
different aggregates under swapping. -/
theorem c7_counterexample :
    ([⟨[("note", JVal.s "a")], []⟩, ⟨[("note", JVal.s "b")], []⟩] :
      List Payload).Perm [⟨[("note", JVal.s "b")], []⟩, ⟨[("note", JVal.s "a")], []⟩] ∧
    aggregate_macro_payloads
        [⟨[("note", JVal.s "a")], []⟩, ⟨[("note", JVal.s "b")], []⟩] "T" ≠
      aggregate_macro_payloads
        [⟨[("note", JVal.s "b")], []⟩, ⟨[("note", JVal.s "a")], []⟩] "T" := by
  constructor
  · exact List.Perm.swap _ _ _
  · decide

/-- C7 amended: aggregation is order independent in its grouping and in its
median and boolean reductions — permuting the repetition payloads permutes
each per-key group, and every field present in all group members whose
values are all numeric (or all boolean) gets the same reduced value — but
full output equality fails (the counterexample) because payload metadata,
non-numeric field values and partially present fields are taken from the
first element in input order. -/
theorem c7_group_median_order_independent (P P' : List Payload) (hp : P.Perm P')
    (k : K5) :
    (groupOf P k).Perm (groupOf P' k) ∧
    (∀ fkey : String,
      ((groupOf P k).filterMap (alookup fkey)).length = (groupOf P k).length →
      (((groupOf P k).filterMap (alookup fkey)).all isNumJ = true ∨
        ((groupOf P k).filterMap (alookup fkey)).all isBoolJ = true) →
      alookup fkey (aggregate_dicts (groupOf P k)) =
        alookup fkey (aggregate_dicts (groupOf P' k))) := by
  have hg : (groupOf P k).Perm (groupOf P' k) := by
    unfold groupOf allRows
    exact List.Perm.filter _ (flatten_perm (hp.map Payload.results))
  exact ⟨hg, fun fkey hall hkind =>
    aggregate_dicts_lookup_perm _ _ hg fkey hall hkind⟩

/-- Witness for C7: two single-row repetitions aggregated in either order
give the same median for the field present in both. -/
theorem c7_witness :
    alookup "write_time_ms" (aggregate_dicts (groupOf
        [⟨[], [[("write_time_ms", JVal.i 10)]]⟩, ⟨[], [[("write_time_ms", JVal.i 12)]]⟩]
        (macro_row_key [("write_time_ms", JVal.i 10)]))) =
      alookup "write_time_ms" (aggregate_dicts (groupOf
        [⟨[], [[("write_time_ms", JVal.i 12)]]⟩, ⟨[], [[("write_time_ms", JVal.i 10)]]⟩]
        (macro_row_key [("write_time_ms", JVal.i 10)]))) := by
  refine (c7_group_median_order_independent _ _ (List.Perm.swap _ _ _)
    (macro_row_key [("write_time_ms", JVal.i 10)])).2 "write_time_ms" ?_ ?_
  · decide
  · exact Or.inl (by decide)

end BcsvBench
